import Mathlib

/-!
# Verification of the hono-docs OpenAPI generator

A shallow embedding of the core of the `hono-docs` repository
(`src/core/generateOpenApi.ts`, `src/core/runGenerate.ts`,
`src/utils/buildSchema.ts`, `src/utils/parameters.ts`,
`src/utils/requestBody.ts`, `src/utils/format.ts`,
`src/utils/middleware-docs.ts`) together with theorems settling the
frozen claims about its specification.

Modelling conventions:
* JavaScript objects used as string-keyed dictionaries are modelled as
  insertion-ordered association lists (`List (String × α)`); assignment
  `o[k] = v` updates in place when the key exists and appends otherwise,
  matching JS own-property insertion order for non-integer keys.  (JS
  additionally iterates integer-like keys first in ascending order; no
  claim below depends on entry order, so that reordering is not
  modelled.)
* A ts-morph `Type` is modelled by the inductive `Ty`, covering exactly
  the shape tests the source performs (`isUnion`, `isString`,
  `isStringLiteral`, `isNull`, `isUndefined`, `isNumber`, `isBoolean`,
  `isArray`, object-literal/interface properties).
* Machine side effects (file writes, `console.warn`, `debug` logging)
  are outside the embedding; a caught exception is modelled by an
  `Except` input describing the outcome of the guarded region.
-/

/-- JSON-like values, the output language of the generator
(schemas, parameter objects, request bodies). -/
inductive Json where
  | str (s : String) : Json
  | bool (b : Bool) : Json
  | num (n : Int) : Json
  | arr (elems : List Json) : Json
  | obj (fields : List (String × Json)) : Json
deriving Repr

/-- `Map.get` / property read on a JS object modelled as an assoc list:
first matching key wins (keys are unique by construction of `setAssoc`). -/
def lookupAssoc {α : Type} : List (String × α) → String → Option α
  | [], _ => none
  | (k, v) :: rest, key => if k == key then some v else lookupAssoc rest key

/-- `Map.set` / JS property assignment `o[k] = v`: overwrite in place if
the key exists, append otherwise. -/
def setAssoc {α : Type} : List (String × α) → String → α → List (String × α)
  | [], k, v => [(k, v)]
  | (k', v') :: rest, k, v =>
      if k' == k then (k, v) :: rest else (k', v') :: setAssoc rest k v

/-! ## Path handling (`src/core/generateOpenApi.ts` lines 33-51) -/

/-- One left-to-right pass of the JS global regex replace
`s.replace(/:([^/]+)/g, quoted dollar-1 wrapped in braces)`: at each `:` followed by at
least one non-`/` character, the greedy `[^/]+` consumes the maximal run
of non-`/` characters (which may itself contain further `:`), the match
is replaced by the run wrapped in braces, and scanning resumes after the
match. -/
def normFuel : Nat → List Char → List Char
  | 0, l => l
  | _ + 1, [] => []
  | fuel + 1, c :: rest =>
      if c = ':' then
        let tok := rest.takeWhile (fun x => x ≠ '/')
        if tok.isEmpty then ':' :: normFuel fuel rest
        else '{' :: tok ++ '}' :: normFuel fuel (rest.drop tok.length)
      else c :: normFuel fuel rest

/-- The scan with enough fuel for the whole input (every step consumes
at least one character per unit of fuel, so the fuel never runs out). -/
def normChars (l : List Char) : List Char := normFuel l.length l

/-- The replace regex of `normalizePathToOpenApi`, shared with
`normalizePathToOpenApi` and the inline copy in
`extractSimpleRoutesFromSource` (line 347). -/
def replaceParamTokens (p : String) : String := ⟨normChars p.data⟩

/-- `normalizePathToOpenApi` (generateOpenApi.ts line 36). -/
def normalizePathToOpenApi (path : String) : String := replaceParamTokens path

/-- Model of JS `routePath.startsWith("/")`. -/
def jsStartsWithSlash (s : String) : Bool :=
  match s.data with
  | '/' :: _ => true
  | _ => false

/-- `combinePathWithPrefix` (generateOpenApi.ts lines 43-51). -/
def combinePathWithPrefix (pfx routePath : String) : String :=
  if pfx = "/" ∨ pfx = "" then routePath
  else if routePath = "/" then pfx
  else pfx ++ (if jsStartsWithSlash routePath then routePath else "/" ++ routePath)

/-- Whether a character list contains two consecutive slashes. -/
def dsChars : List Char → Bool
  | c :: d :: rest => (c == '/' && d == '/') || dsChars (d :: rest)
  | _ => false

/-- Whether a string contains the substring `"//"`. -/
def hasDoubleSlash (s : String) : Bool := dsChars s.data

/-! ## Schema builder (`src/utils/buildSchema.ts`) -/

/-- Model of a ts-morph `Type`, restricted to the shape tests performed
by `buildSchema`, `genParameters` and `genRequestBody`.  An
`objLit` property is `(name, isOptional, type)` and corresponds to a
`PropertySignature` member of a type literal or interface declaration;
`other` stands for every type whose symbol has no type-literal or
interface declaration (classes, primitives not listed, etc.), which the
source maps to the empty schema. -/
inductive Ty where
  | str : Ty
  | num : Ty
  | boolTy : Ty
  | strLit (value : String) : Ty
  | nullTy : Ty
  | undef : Ty
  | arr (elem : Ty) : Ty
  | union (members : List Ty) : Ty
  | objLit (props : List (String × Bool × Ty)) : Ty
  | other : Ty
deriving Repr, Inhabited

/-- `u.isStringLiteral()`. -/
def isStringLiteral : Ty → Bool
  | .strLit _ => true
  | _ => false

/-- `u.isNull()`. -/
def isNullTy : Ty → Bool
  | .nullTy => true
  | _ => false

/-- `u.isUndefined()`. -/
def isUndefinedTy : Ty → Bool
  | .undef => true
  | _ => false

/-- `u.getLiteralValue()` for a string-literal type (the source only
calls it on members that passed `isStringLiteral`). -/
def litValue : Ty → String
  | .strLit s => s
  | _ => ""

mutual

/-- `buildSchema` (buildSchema.ts lines 4-59), with the source's
dispatch order: union, string, number, boolean, array, then the
object-literal/interface case guarded by the declaration-kind check;
everything else degrades to the empty schema. -/
def buildSchema : Ty → Json
  | .union members =>
      let lits := members.filter isStringLiteral
      let onlyNull := members.all
        (fun u => isStringLiteral u || isNullTy u || isUndefinedTy u)
      if lits.length != 0 && onlyNull then
        Json.obj
          ([("type", Json.str "string"),
            ("enum", Json.arr (lits.map (fun u => Json.str (litValue u))))]
           ++ (if members.any (fun u => isNullTy u || isUndefinedTy u) then
                 [("nullable", Json.bool true)]
               else []))
      else
        Json.obj [("oneOf", Json.arr (buildSchemaNonNull members))]
  | .str => Json.obj [("type", Json.str "string")]
  | .num => Json.obj [("type", Json.str "number")]
  | .boolTy => Json.obj [("type", Json.str "boolean")]
  | .arr elem =>
      Json.obj [("type", Json.str "array"), ("items", buildSchema elem)]
  | .objLit props =>
      let propsMap := buildSchemaProps props
      let req := (props.filter (fun p => !p.2.1)).map (fun p => p.1)
      Json.obj
        ([("type", Json.str "object"), ("properties", Json.obj propsMap)]
         ++ (if req.length != 0 then [("required", Json.arr (req.map Json.str))]
             else []))
  | _ => Json.obj []

/-- `nonNull.map(buildSchema)` where
`nonNull = members.filter(u => !u.isNull() && !u.isUndefined())`,
fused into one pass for structural recursion. -/
def buildSchemaNonNull : List Ty → List Json
  | [] => []
  | t :: ts =>
      if isNullTy t || isUndefinedTy t then buildSchemaNonNull ts
      else buildSchema t :: buildSchemaNonNull ts

/-- The `propsMap` loop of the object case:
`propsMap[p.getName()] = buildSchema(decl.getType())` in order. -/
def buildSchemaProps : List (String × Bool × Ty) → List (String × Json)
  | [] => []
  | p :: ps => (p.1, buildSchema p.2.2) :: buildSchemaProps ps

end

/-- The fused `buildSchemaNonNull` agrees with the source's
`filter`-then-`map` formulation. -/
theorem buildSchemaNonNull_eq (ms : List Ty) :
    buildSchemaNonNull ms
      = (ms.filter (fun u => !(isNullTy u || isUndefinedTy u))).map buildSchema := by
  induction ms with
  | nil => simp [buildSchemaNonNull]
  | cons t ts ih =>
      cases hn : isNullTy t <;> cases hu : isUndefinedTy t <;>
        simp [buildSchemaNonNull, hn, hu, List.filter_cons, ih]

/-! ## Documentation lookup (`src/utils/middleware-docs.ts`) -/

/-- `DocConfig` (middleware-docs.ts lines 69-74). -/
structure DocConfig where
  summary : Option String := none
  description : Option String := none
  tags : Option (List String) := none
  deprecated : Option Bool := none
deriving Repr, DecidableEq

/-- `RouteDocumentation` (middleware-docs.ts lines 76-80). -/
structure RouteDocumentation where
  method : String
  route : String
  docConfig : DocConfig
deriving Repr

/-- JS `text.replace(/['"]/g, "")`: delete every single- and
double-quote character anywhere in the text, not only the delimiters.
(39 is the code point of the single-quote character.) -/
def stripQuotes (s : String) : String :=
  ⟨s.data.filter (fun c => !(c == Char.ofNat 39 || c == '"'))⟩

/-- JS `text.replace(/"/g, "")`: delete every double-quote character. -/
def stripDQuotes (s : String) : String :=
  ⟨s.data.filter (fun c => !(c == '"'))⟩

/-- JS `s.toLowerCase()` modelled character-wise (the inputs are ASCII
method names and route paths). -/
def jsToLower (s : String) : String := ⟨s.data.map Char.toLower⟩

/-- JS `s.toUpperCase()` modelled character-wise. -/
def jsToUpper (s : String) : String := ⟨s.data.map Char.toUpper⟩

/-- JS `s.slice(1)` modelled character-wise. -/
def jsSlice1 (s : String) : String := ⟨s.data.drop 1⟩

/-- ASCII whitespace, for the trim model. -/
def isWS (c : Char) : Bool := c == ' ' || c == '\t' || c == '\n' || c == '\r'

/-- JS `s.trim()` modelled character-wise on ASCII whitespace. -/
def jsTrim (s : String) : String :=
  ⟨((s.data.dropWhile isWS).reverse.dropWhile isWS).reverse⟩

/-- Model of the expression nodes inspected by the documentation
scanner.  A `stringLit` or `templateLit` carries the node's source text
`getText()`, delimiters included; `callExpr` is a call whose callee is a
plain identifier; every other node shape the scanner may meet is
`otherExpr`. -/
inductive Expr where
  | stringLit (text : String) : Expr
  | templateLit (text : String) : Expr
  | arrayLit (elems : List Expr) : Expr
  | objectLit (props : List (String × Expr)) : Expr
  | callExpr (callee : String) (args : List Expr) : Expr
  | trueKw : Expr
  | falseKw : Expr
  | otherExpr : Expr
deriving Repr

/-- The `tags` loop of `parseDocConfigObject` (lines 216-220): keep the
string-literal elements, quote-stripped; other elements are skipped. -/
def parseTagElements : List Expr → List String
  | [] => []
  | .stringLit t :: rest => stripQuotes t :: parseTagElements rest
  | _ :: rest => parseTagElements rest

/-- The `switch` body of `parseDocConfigObject` (lines 198-233) for a
single `PropertyAssignment`.  Only `StringLiteral` initializers are
accepted for `summary`/`description`; a template literal (or any other
node kind) falls through the `if` and leaves the config unchanged. -/
def parseDocProperty (config : DocConfig) (propName : String)
    (propValue : Expr) : DocConfig :=
  if propName = "summary" then
    match propValue with
    | .stringLit t => { config with summary := some (stripQuotes t) }
    | _ => config
  else if propName = "description" then
    match propValue with
    | .stringLit t => { config with description := some (stripQuotes t) }
    | _ => config
  else if propName = "tags" then
    match propValue with
    | .arrayLit elems => { config with tags := some (parseTagElements elems) }
    | _ => config
  else if propName = "deprecated" then
    match propValue with
    | .trueKw => { config with deprecated := some true }
    | .falseKw => { config with deprecated := some false }
    | _ => config
  else config

/-- `parseDocConfigObject` (middleware-docs.ts lines 184-243).  For a
non-object argument the function returns the empty config. -/
def parseDocConfigObject : Expr → DocConfig
  | .objectLit props =>
      props.foldl (fun config p => parseDocProperty config p.1 p.2) {}
  | _ => {}

/-- `hasUsefulDocConfig` (lines 248-256): JS truthiness of
`summary?.trim()`, `description?.trim()`, a non-empty tag array, or an
explicitly set boolean `deprecated`. -/
def hasUsefulDocConfig (config : DocConfig) : Bool :=
  (match config.summary with
   | some s => jsTrim s != ""
   | none => false)
  || (match config.description with
      | some s => jsTrim s != ""
      | none => false)
  || (match config.tags with
      | some ts => ts.length > 0
      | none => false)
  || config.deprecated == some true
  || config.deprecated == some false

/-- `findDocMiddlewareInArgs` (lines 147-178): scan the arguments after
the route for a call to the identifier `doc`; on the first such call
with at least one argument, parse and return its first argument.  A
`doc()` call without arguments does not return and scanning continues. -/
def findDocMiddlewareInArgs : List Expr → Option DocConfig
  | [] => none
  | .callExpr callee (configArg :: _) :: rest =>
      if callee = "doc" then some (parseDocConfigObject configArg)
      else findDocMiddlewareInArgs rest
  | _ :: rest => findDocMiddlewareInArgs rest

/-- One `.verb(...)` call expression as seen by the scanner: the callee
property name (`get`, `post`, …) and the full argument list. -/
structure MethodCall where
  methodName : String
  args : List Expr
deriving Repr

/-- The recognized HTTP verbs (middleware-docs.ts line 103 and
generateOpenApi.ts line 338). -/
def httpMethods : List String :=
  ["get", "post", "put", "patch", "delete", "head", "options"]

/-- `extractDocumentationFromMiddleware` (lines 86-141): for each call
whose callee name is an HTTP verb with at least two arguments and a
string-literal first argument, look for a `doc()` marker among the
remaining arguments and record it when it carries useful content. -/
def extractDocumentationFromMiddleware (calls : List MethodCall) :
    List RouteDocumentation :=
  calls.foldl
    (fun documentation call =>
      if httpMethods.contains (jsToLower call.methodName) then
        match call.args with
        | routeArg :: rest =>
            if rest.length + 1 ≥ 2 then
              match routeArg with
              | .stringLit t =>
                  let route := stripQuotes t
                  match findDocMiddlewareInArgs rest with
                  | some docConfig =>
                      if hasUsefulDocConfig docConfig then
                        documentation
                          ++ [{ method := jsToLower call.methodName,
                                route := route, docConfig := docConfig }]
                      else documentation
                  | none => documentation
              | _ => documentation
            else documentation
        | [] => documentation
      else documentation)
    []

/-- `createDocLookup` (lines 261-270): a `Map` keyed by
`method ++ ":" ++ route`. -/
def createDocLookup (documentation : List RouteDocumentation) :
    List (String × DocConfig) :=
  documentation.foldl
    (fun lookup d => setAssoc lookup (d.method ++ ":" ++ d.route) d.docConfig)
    []

/-- `loadDocumentationFromMiddleware` (generateOpenApi.ts lines
215-236).  The `try` block (adding the source file and extracting the
documentation) is modelled by its outcome: `.ok docs` when extraction
succeeded, `.error e` when anything inside the block threw.  The
`catch` arm logs two warnings and returns an empty map. -/
def loadDocumentationFromMiddleware
    (extraction : Except String (List RouteDocumentation)) :
    List (String × DocConfig) :=
  match extraction with
  | .ok documentation => createDocLookup documentation
  | .error _ => []

/-! ## Response grouping and operation construction
(`src/core/generateOpenApi.ts` lines 121-210, `src/utils/format.ts`,
`src/utils/parameters.ts`, `src/utils/requestBody.ts`) -/

/-- One response branch of a verb's method signature (one member of the
union unwrapped by `unwrapUnion`).  The source reads three properties of
the branch type: `input` (absent when the branch type has no `input`
property), the text of the `status` property's type, and the `output`
property's type. -/
structure Variant where
  input : Option Ty
  statusText : String
  output : Ty
deriving Repr

/-- The JS regex test `/^\d+$/.test(s)`. -/
def isNumericStatus (s : String) : Bool :=
  !s.isEmpty && s.data.all (fun c => c.isDigit)

/-- The grouping key of generateOpenApi.ts lines 182-189: the status
text when purely numeric, `"default"` otherwise. -/
def statusKeyOf (v : Variant) : String :=
  if isNumericStatus v.statusText then v.statusText else "default"

/-- `(acc[fn(x)] ||= []).push(x)` on the assoc-list model: push onto the
existing group or create a new group at the end. -/
def insertPush {α : Type} : List (String × List α) → String → α → List (String × List α)
  | [], k, x => [(k, [x])]
  | (k', xs) :: rest, k, x =>
      if k' == k then (k', xs ++ [x]) :: rest
      else (k', xs) :: insertPush rest k x

/-- `groupBy` (format.ts lines 153-161). -/
def groupBy {α : Type} (arr : List α) (fn : α → String) : List (String × List α) :=
  arr.foldl (fun acc x => insertPush acc (fn x) x) []

/-- `unwrapUnion` (format.ts lines 114-118), stated on the `Ty` model;
used here only to justify that the variant list fed to the operation
builder is never empty. -/
def unwrapUnion : Ty → List Ty
  | .union ts => ts
  | t => [t]

/-- One entry of an operation's `responses` object. -/
structure ResponseEntry where
  description : String
  content : List (String × Json)
deriving Repr

/-- The `responses` loop (generateOpenApi.ts lines 181-204): group the
variants by status key, then emit one entry per group whose schema is a
`oneOf` exactly when the group holds more than one schema. -/
def buildResponses (variants : List Variant) : List (String × ResponseEntry) :=
  let byStatus := groupBy variants statusKeyOf
  byStatus.map (fun (g : String × List Variant) =>
    let schemas : List Json := g.2.map (fun v => buildSchema v.output)
    let schema :=
      if schemas.length > 1 then Json.obj [("oneOf", Json.arr schemas)]
      else schemas.headD (Json.obj [])
    (g.1,
     { description :=
         if g.1 = "default" then "Default fallback response"
         else "Status " ++ g.1,
       content := [("application/json", Json.obj [("schema", schema)])] }))

/-- An OpenAPI operation object under construction (the untyped `op`
object of the source); absent JS properties are `none`. -/
structure Operation where
  summary : Option String := none
  description : Option String := none
  tags : Option (List String) := none
  deprecated : Option Bool := none
  parameters : Option (List Json) := none
  requestBody : Option Json := none
  responses : List (String × ResponseEntry) := []
deriving Repr

/-- JS `a || b` for an optional string against a string default:
`undefined` and the empty string are falsy. -/
def jsOrStr (o : Option String) (fallback : String) : String :=
  match o with
  | some s => if s == "" then fallback else s
  | none => fallback

/-- `applyDocumentationToOperation` (generateOpenApi.ts lines 56-72). -/
def applyDocumentationToOperation (op : Operation)
    (docConfig : Option DocConfig) (fallbackSummary apiGroupName : String) :
    Operation :=
  match docConfig with
  | some dc =>
      let op := { op with summary := some (jsOrStr dc.summary fallbackSummary) }
      let op :=
        match dc.description with
        | some d => if d != "" then { op with description := some d } else op
        | none => op
      let op :=
        match dc.tags with
        | some ts => if ts.length > 0 then { op with tags := some ts } else op
        | none => op
      match dc.deprecated with
      | some true => { op with deprecated := some true }
      | _ => op
  | none =>
      { op with summary := some fallbackSummary, tags := some [apiGroupName] }

/-- `getProperty` on the `Ty` model: the `(isOptional, type)` of the
named property of an object-like type, `none` otherwise. -/
def getProp : Ty → String → Option (Bool × Ty)
  | .objLit props, name =>
      (props.find? (fun p => p.1 == name)).map (fun p => (p.2.1, p.2.2))
  | _, _ => none

/-- `getProperties` of a sub-shape: its `(name, isOptional, type)`
members. -/
def tyProps : Ty → List (String × Bool × Ty)
  | .objLit props => props
  | _ => []

/-- `genParameters` (parameters.ts lines 4-28). -/
def genParameters (v : Variant) : List Json :=
  match v.input with
  | none => []
  | some input =>
      ["query", "param", "header", "cookie"].foldl
        (fun params src =>
          match getProp input src with
          | none => params
          | some srcProp =>
              params ++ (tyProps srcProp.2).map (fun f =>
                Json.obj
                  [("name", Json.str f.1),
                   ("in", Json.str (if src == "param" then "path" else src)),
                   ("required", Json.bool (!f.2.1)),
                   ("schema", buildSchema f.2.2)]))
        []

/-- `genRequestBody` (requestBody.ts lines 4-22). -/
def genRequestBody (v : Variant) : Option Json :=
  match v.input with
  | none => none
  | some inp =>
      let content :=
        (match getProp inp "json" with
         | some jp => [("application/json", Json.obj [("schema", buildSchema jp.2)])]
         | none => [])
        ++ (match getProp inp "form" with
            | some fp => [("multipart/form-data", Json.obj [("schema", buildSchema fp.2)])]
            | none => [])
      if content.length != 0 then
        some (Json.obj [("required", Json.bool true), ("content", Json.obj content)])
      else none

/-- The operation-building body of `processTypedRoutes`
(generateOpenApi.ts lines 162-204) for one verb member: documentation
application with the hard-coded `"API"` group placeholder and the
auto-generated fallback summary, parameters and request body from the
first variant, and the grouped responses.  `variants` comes from
`unwrapUnion` and is therefore never empty; `variants[0]` is modelled
with a head default. -/
def mkTypedOperation (http route : String) (docConfig : Option DocConfig)
    (variants : List Variant) : Operation :=
  let op : Operation := {}
  let op := applyDocumentationToOperation op docConfig
    ("Auto-generated " ++ jsToUpper http ++ " " ++ route) "API"
  let v0 := variants.headD { input := none, statusText := "", output := Ty.other }
  let params := genParameters v0
  let op := if params.length != 0 then { op with parameters := some params } else op
  let op :=
    match genRequestBody v0 with
    | some rb => { op with requestBody := some rb }
    | none => op
  { op with responses := buildResponses variants }

/-! ## Merger step (`src/core/runGenerate.ts` lines 96-141,
`src/utils/format.ts` `cleanDefaultResponse`) -/

/-- One manual API override entry of the configuration (`Api`). -/
structure Api where
  api : String
  method : String
  summary : Option String := none
  description : Option String := none
  tag : Option (List String) := none
deriving Repr

/-- JS `a || b` on two optional strings. -/
def jsOrOpt (o fallback : Option String) : Option String :=
  match o with
  | some s => if s == "" then fallback else some s
  | none => fallback

/-- The per-operation merge step of `runGenerate` (lines 117-138):
a matching manual entry replaces summary/description and sets the tags
to the entry's tags or the group name; otherwise the group name is
appended to the operation's tags when not already present. -/
def mergeOperation (op : Operation) (customApi : Option Api)
    (groupName : String) : Operation :=
  match customApi with
  | some ca =>
      let op := { op with summary := jsOrOpt ca.summary op.summary }
      let op := { op with description := jsOrOpt ca.description op.description }
      let newTags :=
        match ca.tag with
        | some ts => if ts.length > 0 then ts else [groupName]
        | none => [groupName]
      { op with tags := some newTags }
  | none =>
      let tags := op.tags.getD []
      let tags := if tags.contains groupName then tags else tags ++ [groupName]
      { op with tags := some tags }

/-- JS `desc.includes(needle)`. -/
def containsSubstr (needle hay : String) : Bool :=
  decide (needle.data <:+: hay.data)

/-- `cleanDefaultResponse` (format.ts lines 123-150): when the `default`
response's description contains `"import("`, relabel it if it has
content and delete it otherwise. -/
def cleanDefaultResponse (op : Operation) : Operation :=
  match lookupAssoc op.responses "default" with
  | none => op
  | some defaultResponse =>
      if containsSubstr "import(" defaultResponse.description then
        if defaultResponse.content.length > 0 then
          let relabeled :=
            { defaultResponse with description := "Default fallback response" }
          { op with responses := setAssoc op.responses "default" relabeled }
        else
          { op with responses := op.responses.filter (fun r => !(r.1 == "default")) }
      else op

/-- The full journey of one typed-route operation through the pipeline:
built by `processTypedRoutes`, then merged and cleaned by
`runGenerate`. -/
def finalTypedOperation (http route groupName : String)
    (docConfig : Option DocConfig) (customApi : Option Api)
    (variants : List Variant) : Operation :=
  cleanDefaultResponse
    (mergeOperation (mkTypedOperation http route docConfig variants)
      customApi groupName)

/-! ## Simple-route fallback (`src/core/generateOpenApi.ts`
lines 77-116 and 317-385) -/

/-- The path-keyed operation map being built (`paths` in the source). -/
abbrev Paths := List (String × List (String × Operation))

/-- `paths[route][method] = op`, creating the inner object if needed. -/
def setPath (paths : Paths) (route method : String) (op : Operation) : Paths :=
  setAssoc paths route (setAssoc ((lookupAssoc paths route).getD []) method op)

/-- The operation synthesized for a scanned simple route
(generateOpenApi.ts lines 353-365). -/
def simpleRouteOperation (methodName normalizedPath : String) : Operation :=
  { summary := some ("Auto-generated " ++ jsToUpper methodName ++ " " ++ normalizedPath),
    responses :=
      [("default",
        { description := "Default fallback response",
          content :=
            [("application/json",
              Json.obj [("schema", Json.obj [("type", Json.str "object")])])] })] }

/-- `extractSimpleRoutesFromSource` (lines 317-385) on the modelled call
expressions.  The input list holds the `.method("...", ...)` calls whose
callee is a property access, with at least two arguments and a
string-literal first argument (the ts-morph traversal that finds them is
outside the embedding); each element is `(methodName, routeText)` with
`routeText` the literal's source text, quotes included.  Note that the
route key stored in the result is the **normalized** path, with `:param`
already rewritten to brace syntax. -/
def extractSimpleRoutesFromSource (calls : List (String × String)) : Paths :=
  calls.foldl
    (fun routes call =>
      let methodName := jsToLower call.1
      if httpMethods.contains methodName then
        let routePath := stripQuotes call.2
        let normalizedPath := replaceParamTokens routePath
        setPath routes normalizedPath methodName
          (simpleRouteOperation methodName normalizedPath)
      else routes)
    []

/-- The API-group fields consumed by `generateOpenApi` /
`processSimpleRoutes`. -/
structure ApiGroup where
  name : String
  apiPrefix : String
deriving Repr

/-- `processSimpleRoutes` (generateOpenApi.ts lines 77-116).  The doc
lookup key is `method ++ ":" ++ routePath` where `routePath` is the key
under which `extractSimpleRoutesFromSource` stored the route — i.e. the
normalized path. -/
def processSimpleRoutes (simpleRoutes : Paths) (apiGroup : ApiGroup)
    (docLookup : List (String × DocConfig)) (paths : Paths) : Paths :=
  simpleRoutes.foldl
    (fun paths entry =>
      let routePath := entry.1
      let prefixedPath := combinePathWithPrefix apiGroup.apiPrefix routePath
      let normalizedPath := normalizePathToOpenApi prefixedPath
      let paths :=
        if (lookupAssoc paths normalizedPath).isNone then paths ++ [(normalizedPath, [])]
        else paths
      entry.2.foldl
        (fun paths mo =>
          let docKey := mo.1 ++ ":" ++ routePath
          let docConfig := lookupAssoc docLookup docKey
          let operation := applyDocumentationToOperation mo.2 docConfig
            (mo.2.summary.getD "") apiGroup.name
          setPath paths normalizedPath mo.1 operation)
        paths)
    paths

/-! ## Type-graph walker (`src/core/generateOpenApi.ts` lines 241-491) -/

/-- The route table carried by a `TypeLiteral` node: each property
signature maps a route-name text (quotes included, e.g. `"/users/:id"`
as written) to its right-hand type literal of method members, each a
property whose name text is `$get`, `$post`, … and whose type unwraps to
a list of response variants. -/
abbrev RouteTable := List (String × List (String × List Variant))

/-- Model of the ts-morph `TypeNode`s the walker dispatches on.
`importType` carries the resolved qualifier name (the right-hand
identifier of a qualified name) and the generic type arguments;
`litStr` is a string-literal type node carrying its source text, quotes
included; `otherNode` carries `getKindName()` for everything else. -/
inductive TNode where
  | typeRef (args : List TNode) : TNode
  | importType (qualifier : Option String) (args : List TNode) : TNode
  | typeLiteral (routes : RouteTable) : TNode
  | intersection (nodes : List TNode) : TNode
  | unionNode (nodes : List TNode) : TNode
  | litStr (text : String) : TNode
  | otherNode (kindName : String) : TNode
deriving Repr, Inhabited

/-- `isKind(SyntaxKind.TypeLiteral)`. -/
def isTypeLiteral : TNode → Bool
  | .typeLiteral _ => true
  | _ => false

/-- `getText()` of the second `MergeSchemaPath` type argument (only
string-literal path arguments are modelled with their text). -/
def nodeText : TNode → String
  | .litStr t => t
  | _ => ""

mutual

/-- `extractTypeLiteralsFromUnion` (generateOpenApi.ts lines 409-491):
returns the empty list for a non-union node, otherwise classifies each
union member. -/
def extractTypeLiteralsFromUnion (unionNode : TNode) (currentPrefix : String) :
    List (TNode × String) :=
  match unionNode with
  | .unionNode members => extractUnionMembers members currentPrefix
  | _ => []

/-- The member loop of `extractTypeLiteralsFromUnion`. -/
def extractUnionMembers (members : List TNode) (currentPrefix : String) :
    List (TNode × String) :=
  match members with
  | [] => []
  | m :: rest => processUnionMember m currentPrefix ++ extractUnionMembers rest currentPrefix

/-- One union member (lines 417-487): a direct type literal is kept at
the current prefix; an import-type is processed only when its qualifier
is `MergeSchemaPath` with at least two type arguments, extending the
prefix with the quote-stripped path argument and descending into the
schema (intersection members directly, unions and anything else through
the recursive walker, which returns nothing for non-unions); an
intersection contributes its type-literal members; all other kinds are
ignored. -/
def processUnionMember (m : TNode) (currentPrefix : String) :
    List (TNode × String) :=
  match m with
  | .typeLiteral _ => [(m, currentPrefix)]
  | .importType qualifier args =>
      if qualifier = some "MergeSchemaPath" then
        match args with
        | schema :: pathArg :: _ =>
            let pathPrefix := stripDQuotes (nodeText pathArg)
            let fullPrefix := currentPrefix ++ pathPrefix
            match schema with
            | .intersection nodes =>
                (nodes.filter isTypeLiteral).map (fun tn => (tn, fullPrefix))
            | _ => extractTypeLiteralsFromUnion schema fullPrefix
        | _ => []
      else []
  | .intersection nodes =>
      (nodes.filter isTypeLiteral).map (fun tn => (tn, currentPrefix))
  | _ => []

end

/-- What `parseAppTypeRoutes` hands to its caller: the recovered
`(literal, prefix)` pairs, plus the `simpleRoutes` object attached to
the array in the `ImportType` fallback branch (empty when the branch
did not run or found nothing). -/
structure ParseResult where
  literals : List (TNode × String)
  simpleRoutes : Paths
deriving Repr

/-- The routes-node dispatch of `parseAppTypeRoutes` (lines 265-308). -/
def parseRoutesNode (routesNode : TNode) (calls : List (String × String)) :
    Except String ParseResult :=
  match routesNode with
  | .intersection nodes =>
      Except.ok
        { literals := (nodes.filter isTypeLiteral).map (fun tn => (tn, "")),
          simpleRoutes := [] }
  | .unionNode _ =>
      Except.ok
        { literals := extractTypeLiteralsFromUnion routesNode "",
          simpleRoutes := [] }
  | .typeLiteral _ =>
      Except.ok { literals := [(routesNode, "")], simpleRoutes := [] }
  | .importType _ _ =>
      Except.ok
        { literals := [], simpleRoutes := extractSimpleRoutesFromSource calls }
  | _ =>
      Except.error "Routes type is not a literal, intersection, or union of literals"

/-- The type-argument check of `parseAppTypeRoutes` (lines 261-265):
fewer than two generic arguments is a hard error, otherwise the second
argument is the routes node. -/
def parseRoutesNodeArgs (typeArgs : List TNode) (calls : List (String × String)) :
    Except String ParseResult :=
  match typeArgs with
  | _ :: routesNode :: _ => parseRoutesNode routesNode calls
  | _ => Except.error "Expected two type arguments on HonoBase"

/-- `parseAppTypeRoutes` (generateOpenApi.ts lines 241-311).  The input
is the type node of the `AppType` alias (`none` when the alias has no
type node) and the modelled call expressions of the original source
file, consumed only by the `ImportType` fallback branch. -/
def parseAppTypeRoutes (topTypeNode : Option TNode)
    (calls : List (String × String)) : Except String ParseResult :=
  match topTypeNode with
  | some (.typeRef args) => parseRoutesNodeArgs args calls
  | some (.importType _ args) => parseRoutesNodeArgs args calls
  | _ => Except.error "AppType must be an ImportType or a TypeReference"

/-- The per-verb-member step of `processTypedRoutes` (lines 146-206):
compute the lowercased verb from the `$get`-style name text, look the
documentation up under the **raw** (un-prefixed, un-normalized) route
text, and build the operation. -/
def processTypedRouteMember (docLookup : List (String × DocConfig))
    (raw route nameText : String) (variants : List Variant) :
    String × Operation :=
  let http := jsToLower (jsSlice1 nameText)
  let docKey := http ++ ":" ++ raw
  let docConfig := lookupAssoc docLookup docKey
  (http, mkTypedOperation http route docConfig variants)

/-- `processTypedRoutes` (generateOpenApi.ts lines 121-210). -/
def processTypedRoutes (literalsWithPrefixes : List (TNode × String))
    (docLookup : List (String × DocConfig)) (paths : Paths) : Paths :=
  literalsWithPrefixes.foldl
    (fun paths lp =>
      match lp.1 with
      | .typeLiteral routes =>
          routes.foldl
            (fun paths member =>
              let raw := stripDQuotes member.1
              let routeWithPrefix := combinePathWithPrefix lp.2 raw
              let route := normalizePathToOpenApi routeWithPrefix
              let paths :=
                if (lookupAssoc paths route).isNone then paths ++ [(route, [])]
                else paths
              member.2.foldl
                (fun paths mm =>
                  let hop := processTypedRouteMember docLookup raw route mm.1 mm.2
                  setPath paths route hop.1 hop.2)
                paths)
            paths
      | _ => paths)
    paths

/-- The path-collection phase of `generateOpenApi` (lines 513-550):
load the documentation lookup (whose extraction outcome is an input),
parse the app type, then process the fallback simple routes and the
typed routes into one `paths` object.  File writing is outside the
embedding. -/
def generateOpenApiPaths
    (extraction : Except String (List RouteDocumentation))
    (topTypeNode : Option TNode) (calls : List (String × String))
    (apiGroup : ApiGroup) : Except String Paths :=
  let docLookup := loadDocumentationFromMiddleware extraction
  (parseAppTypeRoutes topTypeNode calls).map
    (fun res =>
      let paths : Paths := []
      let paths :=
        if res.simpleRoutes.length != 0 then
          processSimpleRoutes res.simpleRoutes apiGroup docLookup paths
        else paths
      processTypedRoutes res.literals docLookup paths)

/-! ## Supporting lemmas -/

/-- With no colon in the input, the parameter scan is the identity. -/
theorem normFuel_id_of_no_colon (fuel : Nat) :
    ∀ l : List Char, (∀ c ∈ l, c ≠ ':') → normFuel fuel l = l := by
  induction fuel with
  | zero => intro l _; rfl
  | succ fuel ih =>
      intro l h
      cases l with
      | nil => rfl
      | cons c rest =>
          have hc : c ≠ ':' := h c (List.mem_cons_self c rest)
          have hr : ∀ x ∈ rest, x ≠ ':' := fun x hx => h x (List.mem_cons_of_mem c hx)
          simp [normFuel, hc, ih rest hr]

/-- `replaceParamTokens` is the identity on colon-free strings. -/
theorem replaceParamTokens_id (p : String) (h : ':' ∉ p.data) :
    replaceParamTokens p = p := by
  have h2 := normFuel_id_of_no_colon p.data.length p.data
    (fun c hc he => h (he ▸ hc))
  simp only [replaceParamTokens, normChars]
  rw [h2]

/-- `(a ++ b).data = a.data ++ b.data`. -/
theorem string_data_append (a b : String) : (a ++ b).data = a.data ++ b.data := rfl

/-- `s.data.getLast? == some '/'`, i.e. whether the string ends with a
slash. -/
def endsWithSlash (s : String) : Bool := s.data.getLast? == some '/'


/-- Concatenation introduces no double slash when neither part has one
and the junction is not slash-slash. -/
theorem dsChars_append (b : List Char) :
    ∀ a : List Char, dsChars a = false → dsChars b = false →
      (a.getLast? ≠ some '/' ∨ b.head? ≠ some '/') →
      dsChars (a ++ b) = false := by
  intro a
  induction a with
  | nil => intro _ hb _; simpa using hb
  | cons c rest ih =>
      intro ha hb hj
      cases rest with
      | nil =>
          cases b with
          | nil => simp [dsChars]
          | cons d bs =>
              have hnd : ¬(c = '/' ∧ d = '/') := by
                rcases hj with h | h
                · intro hcd; exact h (by simp [hcd.1])
                · intro hcd; exact h (by simp [hcd.2])
              have hb' : dsChars (d :: bs) = false := hb
              simp only [List.singleton_append, dsChars, Bool.or_eq_false_iff,
                Bool.and_eq_false_iff] at *
              constructor
              · by_cases hc : c = '/'
                · right
                  simp [beq_iff_eq]
                  intro hd
                  exact hnd ⟨hc, hd⟩
                · left; simp [beq_iff_eq, hc]
              · exact hb'
      | cons c2 rest2 =>
          have ha' : ((c == '/') && (c2 == '/')) = false ∧ dsChars (c2 :: rest2) = false := by
            simpa [dsChars, Bool.or_eq_false_iff] using ha
          have hj' : (c2 :: rest2).getLast? ≠ some '/' ∨ b.head? ≠ some '/' := by
            rcases hj with h | h
            · left
              rwa [List.getLast?_cons_cons] at h
            · right; exact h
          have h2 := ih ha'.2 hb hj'
          have h1 := ha'.1
          simp only [List.cons_append] at h2 ⊢
          simp [dsChars, Bool.or_eq_false_iff, Bool.and_eq_false_iff] at h1 ⊢
          exact ⟨h1, h2⟩

/-! ## Claim C3 -/

/-- C3 (counterexample): the claim asserts that normalization correctly
translates each parameter when one segment holds several `:param`
tokens, and that normalization is idempotent on all paths.  On
`"/files/:a-:b"` the greedy character class swallows the second
parameter into the first brace group, and a second application rewrites
the leftover colon again, so both parts fail. -/
theorem normalizePathToOpenApi_not_idempotent :
    normalizePathToOpenApi "/files/:a-:b" = "/files/{a-:b}"
    ∧ normalizePathToOpenApi (normalizePathToOpenApi "/files/:a-:b")
        ≠ normalizePathToOpenApi "/files/:a-:b" := by
  constructor
  · decide
  · decide

/-- C3 (amended): `normalizePathToOpenApi` is total; it is the identity
on colon-free paths, and it is idempotent on every path whose
normalization is colon-free — equivalently on every path whose segments
each hold at most one `:` token (a segment with several `:` tokens is
collapsed greedily into a single brace group that retains the later
colons, and on such paths a second application differs). -/
theorem normalizePathToOpenApi_idem (p : String) :
    (':' ∉ p.data → normalizePathToOpenApi p = p)
    ∧ (':' ∉ (normalizePathToOpenApi p).data →
        normalizePathToOpenApi (normalizePathToOpenApi p) = normalizePathToOpenApi p) :=
  ⟨fun h => replaceParamTokens_id p h,
   fun h => replaceParamTokens_id (normalizePathToOpenApi p) h⟩

/-- C3 witness: the amended theorem applied at `"/users/:id"`. -/
theorem normalizePathToOpenApi_idem_witness :
    normalizePathToOpenApi (normalizePathToOpenApi "/users/:id")
      = normalizePathToOpenApi "/users/:id" :=
  (normalizePathToOpenApi_idem "/users/:id").2 (by decide)

/-! ## Claim C4 -/

/-- C4 (counterexample): the claim asserts `combine` never produces a
double slash for any inputs; a prefix ending in a slash combined with a
route starting with one does. -/
theorem combinePathWithPrefix_double_slash :
    combinePathWithPrefix "/a/" "/b" = "/a//b"
    ∧ hasDoubleSlash (combinePathWithPrefix "/a/" "/b") = true := by
  constructor
  · decide
  · decide

/-- C4 (amended): the prefix-combination identities
`combine("", p) = p`, `combine("/", p) = p` and
`combine(prefix, "/") = prefix` (for non-empty prefixes) hold as
claimed; the no-double-slash property holds provided neither input
already contains `"//"` and the prefix does not end in a slash (unless
it is exactly the root `"/"`). -/
theorem combinePathWithPrefix_spec :
    (∀ p, combinePathWithPrefix "" p = p)
    ∧ (∀ p, combinePathWithPrefix "/" p = p)
    ∧ (∀ pfx, pfx ≠ "" → combinePathWithPrefix pfx "/" = pfx)
    ∧ (∀ pfx p, hasDoubleSlash pfx = false → hasDoubleSlash p = false →
         (endsWithSlash pfx = false ∨ pfx = "/") →
         hasDoubleSlash (combinePathWithPrefix pfx p) = false) := by
  refine ⟨?_, ?_, ?_, ?_⟩
  · intro p; simp [combinePathWithPrefix]
  · intro p; simp [combinePathWithPrefix]
  · intro pfx h
    by_cases hr : pfx = "/"
    · simp [combinePathWithPrefix, hr]
    · simp [combinePathWithPrefix, hr, h]
  · intro pfx p hp hq hcond
    by_cases h1 : pfx = "/" ∨ pfx = ""
    · simpa [combinePathWithPrefix, h1] using hq
    · by_cases h2 : p = "/"
      · simpa [combinePathWithPrefix, h1, h2] using hp
      · have hend : endsWithSlash pfx = false := by
          rcases hcond with h | h
          · exact h
          · exact absurd (Or.inl h) h1
        have hlast : pfx.data.getLast? ≠ some '/' := by
          intro hc
          simp [endsWithSlash, hc] at hend
        rw [combinePathWithPrefix, if_neg h1, if_neg h2]
        cases hs : jsStartsWithSlash p with
        | true =>
            rw [if_pos rfl]
            show dsChars ((pfx ++ p).data) = false
            rw [string_data_append]
            exact dsChars_append p.data pfx.data hp hq (Or.inl hlast)
        | false =>
            rw [if_neg (by simp)]
            show dsChars ((pfx ++ ("/" ++ p)).data) = false
            rw [string_data_append, string_data_append]
            have hslash : dsChars (("/" : String).data ++ p.data) = false := by
              cases hpd : p.data with
              | nil => simp [dsChars]
              | cons d ds =>
                  have hd : d ≠ '/' := by
                    intro he
                    rw [jsStartsWithSlash, hpd, he] at hs
                    simp at hs
                  have hq0 : dsChars p.data = false := hq
                  have hq' : dsChars (d :: ds) = false := by rwa [hpd] at hq0
                  show dsChars ('/' :: d :: ds) = false
                  simp [dsChars, hq', beq_iff_eq, hd]
            exact dsChars_append (("/" : String).data ++ p.data) pfx.data hp hslash
              (Or.inl hlast)

/-- C4 witness: the amended theorem applied at concrete inputs. -/
theorem combinePathWithPrefix_spec_witness :
    combinePathWithPrefix "" "/users" = "/users"
    ∧ combinePathWithPrefix "/" "/users" = "/users"
    ∧ combinePathWithPrefix "/api" "/" = "/api"
    ∧ hasDoubleSlash (combinePathWithPrefix "/api" "/users") = false :=
  ⟨combinePathWithPrefix_spec.1 "/users",
   combinePathWithPrefix_spec.2.1 "/users",
   combinePathWithPrefix_spec.2.2.1 "/api" (by decide),
   combinePathWithPrefix_spec.2.2.2 "/api" "/users" (by decide) (by decide)
     (Or.inl (by decide))⟩

/-! ## Claim C5 -/

/-- C5 (counterexample): the claim asserts the string-enum form is
returned whenever *every* member of the union is a string literal or
null/undefined; for the union of only `null` and `undefined` (no string
literal at all) the code instead returns an empty `oneOf`. -/
theorem buildSchema_union_all_null :
    buildSchema (.union [.nullTy, .undef]) = Json.obj [("oneOf", Json.arr [])]
    ∧ buildSchema (.union [.nullTy, .undef])
        ≠ Json.obj [("type", Json.str "string"), ("enum", Json.arr []),
                    ("nullable", Json.bool true)] := by
  have h : buildSchema (.union [.nullTy, .undef]) = Json.obj [("oneOf", Json.arr [])] := rfl
  refine ⟨h, ?_⟩
  rw [h]
  simp

/-- C5 (amended): on a union type, `buildSchema` returns the string-enum
schema (with `nullable` exactly when a null/undefined member is present)
whenever every member is a string literal or null/undefined **and at
least one member is a string literal**; otherwise — including the union
of only null/undefined members — it returns a `oneOf` over exactly the
non-null, non-undefined members. -/
theorem buildSchema_union_spec (ms : List Ty) :
    ((ms.filter isStringLiteral).length ≠ 0 →
      ms.all (fun u => isStringLiteral u || isNullTy u || isUndefinedTy u) = true →
      buildSchema (.union ms)
        = Json.obj
            ([("type", Json.str "string"),
              ("enum", Json.arr ((ms.filter isStringLiteral).map
                (fun u => Json.str (litValue u))))]
             ++ (if ms.any (fun u => isNullTy u || isUndefinedTy u) then
                   [("nullable", Json.bool true)]
                 else [])))
    ∧ (((ms.filter isStringLiteral).length = 0 ∨
        ms.all (fun u => isStringLiteral u || isNullTy u || isUndefinedTy u) = false) →
      buildSchema (.union ms)
        = Json.obj [("oneOf", Json.arr
            ((ms.filter (fun u => !(isNullTy u || isUndefinedTy u))).map buildSchema))]) := by
  constructor
  · intro h1 h2
    simp only [buildSchema]
    rw [if_pos]
    simp [h1, h2]
  · intro h
    simp only [buildSchema]
    rw [if_neg, buildSchemaNonNull_eq]
    rcases h with h | h
    · simp [h]
    · simp [h]

/-- C5 witness: the amended theorem applied to the union
`"a" | "b" | null` of the claim's example. -/
theorem buildSchema_union_spec_witness :
    buildSchema (.union [.strLit "a", .strLit "b", .nullTy])
      = Json.obj [("type", Json.str "string"),
                  ("enum", Json.arr [Json.str "a", Json.str "b"]),
                  ("nullable", Json.bool true)] := by
  have h := (buildSchema_union_spec [.strLit "a", .strLit "b", .nullTy]).1
    (by decide) (by decide)
  rw [h]
  rfl

/-! ## Claim C2: response grouping lemmas -/

/-- How one fold step extends a group: `none` with nothing to add stays
absent, otherwise the collected elements are appended. -/
def combineGroup {α : Type} (o : Option (List α)) (l : List α) : Option (List α) :=
  match o, l with
  | none, [] => none
  | none, l => some l
  | some v, l => some (v ++ l)

theorem lookupAssoc_insertPush {α : Type} (k : String) (x : α) :
    ∀ (acc : List (String × List α)) (k' : String),
      lookupAssoc (insertPush acc k x) k'
        = if k' = k then some ((lookupAssoc acc k).getD [] ++ [x])
          else lookupAssoc acc k' := by
  intro acc
  induction acc with
  | nil =>
      intro k'
      by_cases h : k' = k
      · subst h; simp [insertPush, lookupAssoc]
      · simp [insertPush, lookupAssoc, h, beq_iff_eq, Ne.symm h]
  | cons hd rest ih =>
      intro k'
      obtain ⟨k0, xs0⟩ := hd
      by_cases h0 : k0 = k
      · subst h0
        by_cases h' : k' = k0
        · subst h'; simp [insertPush, lookupAssoc]
        · simp [insertPush, lookupAssoc, h', beq_iff_eq, Ne.symm h']
      · by_cases h' : k' = k0
        · subst h'
          simp [insertPush, lookupAssoc, beq_iff_eq, h0]
        · simp [insertPush, lookupAssoc, beq_iff_eq, h0, Ne.symm h', ih]

theorem keys_insertPush {α : Type} (k : String) (x : α) :
    ∀ acc : List (String × List α),
      (insertPush acc k x).map Prod.fst
        = if k ∈ acc.map Prod.fst then acc.map Prod.fst
          else acc.map Prod.fst ++ [k] := by
  intro acc
  induction acc with
  | nil => simp [insertPush]
  | cons hd rest ih =>
      obtain ⟨k0, xs0⟩ := hd
      by_cases h0 : k0 = k
      · subst h0; simp [insertPush]
      · by_cases hc : k ∈ rest.map Prod.fst
        · simp [insertPush, beq_iff_eq, h0, ih, hc, List.mem_cons, Ne.symm h0]
        · simp [insertPush, beq_iff_eq, h0, ih, hc, List.mem_cons, Ne.symm h0]

theorem keys_insertPush_nodup {α : Type} (k : String) (x : α)
    (acc : List (String × List α)) (h : (acc.map Prod.fst).Nodup) :
    ((insertPush acc k x).map Prod.fst).Nodup := by
  rw [keys_insertPush]
  by_cases hc : k ∈ acc.map Prod.fst
  · rw [if_pos hc]; exact h
  · rw [if_neg hc]
    refine List.Nodup.append h (List.nodup_singleton _) ?_
    intro a ha hb
    simp only [List.mem_singleton] at hb
    subst hb
    exact hc ha

theorem lookupAssoc_foldl_insertPush {α : Type} (fn : α → String) :
    ∀ (rem : List α) (acc : List (String × List α)) (k : String),
      lookupAssoc (rem.foldl (fun acc x => insertPush acc (fn x) x) acc) k
        = combineGroup (lookupAssoc acc k) (rem.filter (fun x => fn x == k)) := by
  intro rem
  induction rem with
  | nil =>
      intro acc k
      simp only [List.foldl_nil, List.filter_nil]
      cases h : lookupAssoc acc k <;> simp [combineGroup, h]
  | cons x rest ih =>
      intro acc k
      simp only [List.foldl_cons]
      rw [ih, lookupAssoc_insertPush]
      by_cases h : k = fn x
      · subst h
        rw [if_pos rfl]
        simp only [List.filter_cons, beq_self_eq_true, if_true]
        cases ho : lookupAssoc acc (fn x) with
        | none =>
            cases hl : rest.filter (fun y => fn y == fn x) <;> simp [combineGroup]
        | some v =>
            cases hl : rest.filter (fun y => fn y == fn x) <;>
              simp [combineGroup, List.append_assoc]
      · have hx : (fn x == k) = false := by
          simp only [beq_eq_false_iff_ne, ne_eq]
          exact fun e => h e.symm
        rw [if_neg h]
        simp [List.filter_cons, hx]

theorem keys_foldl_insertPush_nodup {α : Type} (fn : α → String) :
    ∀ (rem : List α) (acc : List (String × List α)),
      ((acc.map Prod.fst)).Nodup →
      ((rem.foldl (fun acc x => insertPush acc (fn x) x) acc).map Prod.fst).Nodup := by
  intro rem
  induction rem with
  | nil => intro acc h; simpa using h
  | cons x rest ih =>
      intro acc h
      simp only [List.foldl_cons]
      exact ih _ (keys_insertPush_nodup (fn x) x acc h)

theorem lookupAssoc_none_iff {α : Type} :
    ∀ (acc : List (String × α)) (k : String),
      lookupAssoc acc k = none ↔ k ∉ acc.map Prod.fst := by
  intro acc
  induction acc with
  | nil => intro k; simp [lookupAssoc]
  | cons hd rest ih =>
      intro k
      obtain ⟨k0, v0⟩ := hd
      by_cases h : k0 = k
      · subst h; simp [lookupAssoc]
      · simp [lookupAssoc, beq_iff_eq, h, Ne.symm h, ih]

theorem lookupAssoc_of_mem_nodup {α : Type} :
    ∀ (acc : List (String × α)) (k : String) (v : α),
      (acc.map Prod.fst).Nodup → (k, v) ∈ acc → lookupAssoc acc k = some v := by
  intro acc
  induction acc with
  | nil => intro k v _ h; simp at h
  | cons hd rest ih =>
      intro k v hnd hm
      obtain ⟨k0, v0⟩ := hd
      simp only [List.map_cons, List.nodup_cons] at hnd
      rcases List.mem_cons.mp hm with h | h
      · cases h
        simp [lookupAssoc]
      · have hk0 : k0 ≠ k := by
          intro he
          subst he
          exact hnd.1 (List.mem_map_of_mem Prod.fst h)
        simp [lookupAssoc, beq_iff_eq, hk0, ih _ _ hnd.2 h]

theorem mem_keys_groupBy {α : Type} (fn : α → String) (arr : List α) (code : String) :
    code ∈ (groupBy arr fn).map Prod.fst ↔ code ∈ arr.map fn := by
  have hlook := lookupAssoc_foldl_insertPush fn arr [] code
  have h0 : lookupAssoc ([] : List (String × List α)) code = none := rfl
  rw [h0] at hlook
  constructor
  · intro hmem
    rcases hopt : lookupAssoc (groupBy arr fn) code with _ | v
    · exact absurd hmem ((lookupAssoc_none_iff _ _).mp hopt)
    · simp only [groupBy] at hopt
      rw [hlook] at hopt
      cases hfil : arr.filter (fun x => fn x == code) with
      | nil => rw [hfil] at hopt; simp [combineGroup] at hopt
      | cons a l =>
          have ha : a ∈ arr.filter (fun x => fn x == code) := by
            rw [hfil]; exact List.mem_cons_self a l
          have := List.mem_filter.mp ha
          exact List.mem_map.mpr ⟨a, this.1, by simpa [beq_iff_eq] using this.2⟩
  · intro hmem
    obtain ⟨a, ha, hfa⟩ := List.mem_map.mp hmem
    have hmemf : a ∈ arr.filter (fun x => fn x == code) :=
      List.mem_filter.mpr ⟨ha, by simp [hfa]⟩
    have hne : lookupAssoc (groupBy arr fn) code ≠ none := by
      simp only [groupBy]
      rw [hlook]
      cases hfil : arr.filter (fun x => fn x == code) with
      | nil => rw [hfil] at hmemf; simp at hmemf
      | cons b l => simp [combineGroup]
    by_contra hnot
    exact hne ((lookupAssoc_none_iff _ _).mpr hnot)

theorem lookup_groupBy {α : Type} (fn : α → String) (arr : List α)
    (code : String) (vs : List α) (h : (code, vs) ∈ groupBy arr fn) :
    vs = arr.filter (fun x => fn x == code) := by
  have hnd : ((groupBy arr fn).map Prod.fst).Nodup :=
    keys_foldl_insertPush_nodup fn arr [] (by simp)
  have hl := lookupAssoc_of_mem_nodup _ _ _ hnd h
  have hlook := lookupAssoc_foldl_insertPush fn arr [] code
  have h0 : lookupAssoc ([] : List (String × List α)) code = none := rfl
  rw [h0] at hlook
  simp only [groupBy] at hl
  rw [hlook] at hl
  cases hfil : arr.filter (fun x => fn x == code) with
  | nil => rw [hfil] at hl; simp [combineGroup] at hl
  | cons a l =>
      rw [hfil] at hl
      simp only [combineGroup, Option.some.injEq] at hl
      exact hl.symm

/-- C2: for every variant list, the emitted `responses` object has
pairwise-distinct keys; its keys are exactly the status keys of the
variants (numeric statuses verbatim, all non-numeric statuses collapsed
onto the single key `"default"`); and every entry's schema is a `oneOf`
of the schemas of the variants sharing its status exactly when there is
more than one of them, the lone schema otherwise. -/
theorem buildResponses_spec (variants : List Variant) :
    ((buildResponses variants).map Prod.fst).Nodup
    ∧ (∀ code, code ∈ (buildResponses variants).map Prod.fst
        ↔ code ∈ variants.map statusKeyOf)
    ∧ (∀ code entry, (code, entry) ∈ buildResponses variants →
        entry.content = [("application/json", Json.obj [("schema",
          (let schemas := (variants.filter (fun v => statusKeyOf v == code)).map
            (fun v => buildSchema v.output);
           if schemas.length > 1 then Json.obj [("oneOf", Json.arr schemas)]
           else schemas.headD (Json.obj [])))])]
        ∧ entry.description
            = (if code = "default" then "Default fallback response"
               else "Status " ++ code)) := by
  have hkeys : (buildResponses variants).map Prod.fst
      = (groupBy variants statusKeyOf).map Prod.fst := by
    simp only [buildResponses, List.map_map]
    exact List.map_congr_left (fun g _ => rfl)
  refine ⟨?_, ?_, ?_⟩
  · rw [hkeys]
    exact keys_foldl_insertPush_nodup statusKeyOf variants [] (by simp)
  · intro code
    rw [hkeys]
    exact mem_keys_groupBy statusKeyOf variants code
  · intro code entry hmem
    simp only [buildResponses] at hmem
    obtain ⟨g, hg, hfe⟩ := List.mem_map.mp hmem
    obtain ⟨gk, gvs⟩ := g
    rw [Prod.mk.injEq] at hfe
    obtain ⟨h1, h2⟩ := hfe
    dsimp only at h1 h2
    subst h1
    subst h2
    have hvs : gvs = variants.filter (fun v => statusKeyOf v == gk) :=
      lookup_groupBy statusKeyOf variants gk gvs hg
    rw [hvs]
    exact ⟨rfl, rfl⟩

/-- C2 witness: the theorem applied to the claim's example — three
branches at statuses 200, 200, 404 — which yields exactly the two
entries `"200"` (a `oneOf` of the two schemas) and `"404"`. -/
theorem buildResponses_spec_witness :
    "200" ∈ (buildResponses [⟨none, "200", Ty.str⟩, ⟨none, "200", Ty.num⟩,
        ⟨none, "404", Ty.boolTy⟩]).map Prod.fst
    ∧ buildResponses [⟨none, "200", Ty.str⟩, ⟨none, "200", Ty.num⟩,
        ⟨none, "404", Ty.boolTy⟩]
      = [("200",
          { description := "Status 200",
            content := [("application/json", Json.obj [("schema",
              Json.obj [("oneOf", Json.arr
                [Json.obj [("type", Json.str "string")],
                 Json.obj [("type", Json.str "number")]])])])] }),
         ("404",
          { description := "Status 404",
            content := [("application/json", Json.obj [("schema",
              Json.obj [("type", Json.str "boolean")])])] })] :=
  ⟨((buildResponses_spec [⟨none, "200", Ty.str⟩, ⟨none, "200", Ty.num⟩,
      ⟨none, "404", Ty.boolTy⟩]).2.1 "200").mpr (by decide), by rfl⟩

/-! ## Claim C1 -/

/-- `cleanDefaultResponse` only rewrites the `responses` object; summary
and tags pass through. -/
theorem cleanDefaultResponse_preserves (op : Operation) :
    (cleanDefaultResponse op).summary = op.summary
    ∧ (cleanDefaultResponse op).tags = op.tags := by
  unfold cleanDefaultResponse
  cases lookupAssoc op.responses "default" with
  | none => exact ⟨rfl, rfl⟩
  | some dr =>
      dsimp only
      split_ifs <;> exact ⟨rfl, rfl⟩

/-- The summary and tags a typed-route operation leaves
`processTypedRoutes` with when no `doc()` marker matched: the
auto-generated summary and the hard-coded `"API"` placeholder tag. -/
theorem mkTypedOperation_no_doc (http route : String) (variants : List Variant) :
    (mkTypedOperation http route none variants).summary
      = some ("Auto-generated " ++ jsToUpper http ++ " " ++ route)
    ∧ (mkTypedOperation http route none variants).tags = some ["API"] := by
  unfold mkTypedOperation applyDocumentationToOperation
  constructor <;>
    · dsimp only
      split <;> (try split) <;> rfl

/-- The merge step without a manual entry: tags get the group name
appended when missing; summary untouched. -/
theorem mergeOperation_none (op : Operation) (groupName : String) :
    (mergeOperation op none groupName).summary = op.summary
    ∧ (mergeOperation op none groupName).tags
      = some (if (op.tags.getD []).contains groupName then op.tags.getD []
              else op.tags.getD [] ++ [groupName]) := by
  unfold mergeOperation
  exact ⟨rfl, rfl⟩

/-- C1 (counterexample): a typed route with no inline marker and no
manual override, in a group named `"Users"`, ends with tags
`["API", "Users"]` in the merged document — not the claimed one-element
`["Users"]`. -/
theorem finalTypedOperation_tags_counterexample :
    (finalTypedOperation "get" "/users" "Users" none none
        [⟨none, "200", Ty.objLit [("id", false, Ty.str)]⟩]).tags
      = some ["API", "Users"]
    ∧ (finalTypedOperation "get" "/users" "Users" none none
        [⟨none, "200", Ty.objLit [("id", false, Ty.str)]⟩]).tags
      ≠ some ["Users"] := by
  constructor
  · rfl
  · decide

/-- C1 (amended): a route with neither an inline `doc()` marker nor a
manual config override gets the auto-generated
`"Auto-generated {VERB} {path}"` summary in the merged document; its
tags are `["API", groupName]` for a route recovered from the type graph
(the hard-coded `"API"` placeholder followed by the appended group
name; just `["API"]` when the group itself is named `"API"`), and
exactly `[groupName]` only for a route recovered by the source-text
fallback. -/
theorem finalOperation_no_doc_no_override (http route groupName m p g : String)
    (variants : List Variant) :
    (finalTypedOperation http route groupName none none variants).summary
      = some ("Auto-generated " ++ jsToUpper http ++ " " ++ route)
    ∧ (finalTypedOperation http route groupName none none variants).tags
      = some (if groupName = "API" then ["API"] else ["API", groupName])
    ∧ ((cleanDefaultResponse (mergeOperation
          (applyDocumentationToOperation (simpleRouteOperation m p) none
            ((simpleRouteOperation m p).summary.getD "") g) none g)).summary
        = some ("Auto-generated " ++ jsToUpper m ++ " " ++ p)
       ∧ (cleanDefaultResponse (mergeOperation
            (applyDocumentationToOperation (simpleRouteOperation m p) none
              ((simpleRouteOperation m p).summary.getD "") g) none g)).tags
          = some [g]) := by
  have hmk := mkTypedOperation_no_doc http route variants
  have hmerge := mergeOperation_none (mkTypedOperation http route none variants) groupName
  have hclean := cleanDefaultResponse_preserves
    (mergeOperation (mkTypedOperation http route none variants) none groupName)
  refine ⟨?_, ?_, ?_, ?_⟩
  · unfold finalTypedOperation
    rw [hclean.1, hmerge.1, hmk.1]
  · unfold finalTypedOperation
    rw [hclean.2, hmerge.2, hmk.2]
    by_cases hg : groupName = "API"
    · subst hg; simp
    · have hcon : (["API"] : List String).contains groupName = false := by
        apply Bool.eq_false_iff.mpr
        intro hx
        exact hg (by simpa using List.elem_iff.mp hx)
      simp [hcon, hg]
  · have h1 := cleanDefaultResponse_preserves (mergeOperation
      (applyDocumentationToOperation (simpleRouteOperation m p) none
        ((simpleRouteOperation m p).summary.getD "") g) none g)
    have h2 := mergeOperation_none (applyDocumentationToOperation
      (simpleRouteOperation m p) none
      ((simpleRouteOperation m p).summary.getD "") g) g
    rw [h1.1, h2.1]
    rfl
  · have h1 := cleanDefaultResponse_preserves (mergeOperation
      (applyDocumentationToOperation (simpleRouteOperation m p) none
        ((simpleRouteOperation m p).summary.getD "") g) none g)
    have h2 := mergeOperation_none (applyDocumentationToOperation
      (simpleRouteOperation m p) none
      ((simpleRouteOperation m p).summary.getD "") g) g
    rw [h1.2, h2.2]
    have htags : (applyDocumentationToOperation (simpleRouteOperation m p) none
        ((simpleRouteOperation m p).summary.getD "") g).tags = some [g] := rfl
    rw [htags]
    simp

/-! ## Claim C6 -/

/-- C6 (counterexample): a `doc()` marker recorded under the raw-path
key `"get:/users/:id"` is present in the lookup, yet the source-text
fallback pipeline emits the auto-generated summary for that route — the
fallback looks the marker up under the **normalized** key
`"get:/users/{id}"`, so the claimed raw-path key is not used there. -/
theorem processSimpleRoutes_doc_key_counterexample :
    lookupAssoc
        (createDocLookup
          [{ method := "get", route := "/users/:id",
             docConfig := { summary := some "Get user by ID" } }])
        "get:/users/:id"
      = some { summary := some "Get user by ID" }
    ∧ ((lookupAssoc
          ((lookupAssoc
            (processSimpleRoutes
              (extractSimpleRoutesFromSource [("get", "\"/users/:id\"")])
              { name := "Users", apiPrefix := "/api" }
              (createDocLookup
                [{ method := "get", route := "/users/:id",
                   docConfig := { summary := some "Get user by ID" } }])
              [])
            "/api/users/{id}").getD [])
          "get").map (fun op => op.summary))
      = some (some "Auto-generated GET /users/{id}") := by
  constructor
  · rfl
  · decide

/-- C6 (amended): a typed route's documentation override is looked up
under `verb:rawRoutePath` — verb lowercased, path exactly as written
with `:param` syntax, never prefixed — as claimed; a source-text
fallback route's override is instead looked up under
`verb:normalizedRoutePath`, the key under which the fallback scan
stored the route, with `:param` already rewritten to brace syntax (so a
marker written against a parameterized raw path is never found for
fallback routes). -/
theorem docLookup_key_usage (docLookup : List (String × DocConfig))
    (raw route nameText m litText : String) (g : ApiGroup)
    (variants : List Variant)
    (hm : httpMethods.contains (jsToLower m) = true) :
    (processTypedRouteMember docLookup raw route nameText variants).2
      = mkTypedOperation (jsToLower (jsSlice1 nameText)) route
          (lookupAssoc docLookup ((jsToLower (jsSlice1 nameText)) ++ ":" ++ raw))
          variants
    ∧ processSimpleRoutes (extractSimpleRoutesFromSource [(m, litText)]) g
        docLookup []
      = [(normalizePathToOpenApi
            (combinePathWithPrefix g.apiPrefix
              (replaceParamTokens (stripQuotes litText))),
          [(jsToLower m,
            applyDocumentationToOperation
              (simpleRouteOperation (jsToLower m)
                (replaceParamTokens (stripQuotes litText)))
              (lookupAssoc docLookup
                (jsToLower m ++ ":" ++ replaceParamTokens (stripQuotes litText)))
              ((simpleRouteOperation (jsToLower m)
                (replaceParamTokens (stripQuotes litText))).summary.getD "")
              g.name)])] := by
  constructor
  · rfl
  · simp only [extractSimpleRoutesFromSource, List.foldl_cons, List.foldl_nil, hm,
      if_true, setPath, lookupAssoc, setAssoc, processSimpleRoutes,
      Option.getD, Option.isNone, beq_self_eq_true]

/-- C6 witness: the amended theorem applied at a concrete fallback
call. -/
theorem docLookup_key_usage_witness :
    processSimpleRoutes (extractSimpleRoutesFromSource [("get", "\"/u/:id\"")])
        { name := "Users", apiPrefix := "/api" } [] []
      = [(normalizePathToOpenApi
            (combinePathWithPrefix "/api"
              (replaceParamTokens (stripQuotes "\"/u/:id\""))),
          [("get",
            applyDocumentationToOperation
              (simpleRouteOperation "get"
                (replaceParamTokens (stripQuotes "\"/u/:id\"")))
              (lookupAssoc []
                ("get" ++ ":" ++ replaceParamTokens (stripQuotes "\"/u/:id\"")))
              ((simpleRouteOperation "get"
                (replaceParamTokens (stripQuotes "\"/u/:id\""))).summary.getD "")
              "Users")])] :=
  (docLookup_key_usage [] "" "" "" "get" "\"/u/:id\""
    { name := "Users", apiPrefix := "/api" } [] (by decide)).2

/-! ## Claim C7 -/

/-- C7 (code evaluated at the failing input): a `doc()` marker whose
`summary`/`description` are template literals yields an empty config —
`parseDocConfigObject` accepts only `StringLiteral` initializers, there
is no template-literal case and no dedent step anywhere — and the
marker is then discarded entirely as useless, so the route ends up with
no documentation at all.  The repository's own unit tests
(`tests/unit/utils/middleware-docs.test.ts`, "handles template literal
descriptions with dedent preprocessing") expect the dedented text to be
extracted instead. -/
theorem parseDocConfigObject_ignores_template_literals :
    parseDocConfigObject (.objectLit
      [("summary", .templateLit "`Template literal summary`"),
       ("description", .templateLit "`Line one\n  Line two`")])
      = { summary := none, description := none, tags := none, deprecated := none }
    ∧ extractDocumentationFromMiddleware
        [{ methodName := "get",
           args := [.stringLit "\"/multiline\"",
                    .callExpr "doc" [.objectLit
                      [("summary", .templateLit "`Template literal summary`")]],
                    .otherExpr] }]
      = [] := by
  exact ⟨rfl, rfl⟩

/-! ## Claim C8 -/

/-- Whether an `Except` carries a value. -/
def exceptIsOk {α : Type} : Except String α → Bool
  | .ok _ => true
  | .error _ => false

/-- The top node shapes `parseAppTypeRoutes` accepts. -/
def topShapeOk : Option TNode → Bool
  | some (.typeRef _) => true
  | some (.importType _ _) => true
  | _ => false

/-- The generic type arguments of the accepted top node shapes. -/
def topTypeArgs : Option TNode → List TNode
  | some (.typeRef args) => args
  | some (.importType _ args) => args
  | _ => []

/-- Whether the argument list has at least two entries (the
`typeArgs.length < 2` check). -/
def hasTwoTypeArgs : List TNode → Bool
  | _ :: _ :: _ => true
  | _ => false

/-- The routes-node kinds the dispatch recognizes. -/
def routesNodeRecognized : TNode → Bool
  | .typeLiteral _ => true
  | .intersection _ => true
  | .unionNode _ => true
  | .importType _ _ => true
  | _ => false

/-- C8: `parseAppTypeRoutes` succeeds exactly when the `AppType` node is
a type reference or import type, with at least two generic type
arguments, whose second argument is a type literal, intersection, union,
or import type; every other input is an error. -/
theorem parseAppTypeRoutes_error_iff (top : Option TNode)
    (calls : List (String × String)) :
    exceptIsOk (parseAppTypeRoutes top calls)
      = (topShapeOk top
         && hasTwoTypeArgs (topTypeArgs top)
         && routesNodeRecognized ((topTypeArgs top).getD 1 (.otherNode ""))) := by
  cases top with
  | none => rfl
  | some t =>
      cases t with
      | typeRef args =>
          cases args with
          | nil => rfl
          | cons a rest =>
              cases rest with
              | nil => rfl
              | cons b rest2 => cases b <;> rfl
      | importType q args =>
          cases args with
          | nil => rfl
          | cons a rest =>
              cases rest with
              | nil => rfl
              | cons b rest2 => cases b <;> rfl
      | typeLiteral r => rfl
      | intersection n => rfl
      | unionNode n => rfl
      | litStr s => rfl
      | otherNode k => rfl

/-! ## Claim C9 -/

/-- C9: a failure of inline-documentation extraction never aborts
generation — the run with a failed extraction equals the run with an
empty documentation list, and whether path generation succeeds is
entirely independent of the extraction outcome. -/
theorem generateOpenApiPaths_doc_failure_harmless :
    (∀ (e : String) (top : Option TNode) (calls : List (String × String))
       (g : ApiGroup),
      generateOpenApiPaths (.error e) top calls g
        = generateOpenApiPaths (.ok []) top calls g)
    ∧ (∀ (r₁ r₂ : Except String (List RouteDocumentation))
         (top : Option TNode) (calls : List (String × String)) (g : ApiGroup),
        exceptIsOk (generateOpenApiPaths r₁ top calls g)
          = exceptIsOk (generateOpenApiPaths r₂ top calls g)) := by
  constructor
  · intro e top calls g
    rfl
  · intro r₁ r₂ top calls g
    cases hp : parseAppTypeRoutes top calls with
    | ok res => simp [generateOpenApiPaths, hp, exceptIsOk, Except.map]
    | error e => simp [generateOpenApiPaths, hp, exceptIsOk, Except.map]

/-! ## Claim C10 -/

/-- The `tags` loop on an all-string-literal array extracts each
element, quote-stripped. -/
theorem parseTagElements_map (ts : List String) :
    parseTagElements (ts.map Expr.stringLit) = ts.map stripQuotes := by
  induction ts with
  | nil => rfl
  | cons t rest ih => simp [parseTagElements, ih]

/-- C10: extracting `summary`/`description`/`tags` from a marker's
object literal deletes **every** single- and double-quote character of
the value's source text (the `replace` regex is global and unanchored),
not only the surrounding delimiters: the extracted strings are
`stripQuotes` of the full literal text and are quote-free, so any
authored value with an interior quote loses those characters. -/
theorem parseDocConfigObject_strips_quotes (t : String) (ts : List String) :
    parseDocConfigObject (.objectLit
        [("summary", .stringLit t), ("description", .stringLit t)])
      = { summary := some (stripQuotes t), description := some (stripQuotes t) }
    ∧ parseDocConfigObject (.objectLit [("tags", .arrayLit (ts.map Expr.stringLit))])
      = { tags := some (ts.map stripQuotes) }
    ∧ (∀ c ∈ (stripQuotes t).data, c ≠ '"' ∧ c ≠ Char.ofNat 39) := by
  refine ⟨rfl, ?_, ?_⟩
  · have h := parseTagElements_map ts
    calc parseDocConfigObject (.objectLit
            [("tags", .arrayLit (ts.map Expr.stringLit))])
        = { tags := some (parseTagElements (ts.map Expr.stringLit)) } := rfl
      _ = { tags := some (ts.map stripQuotes) } := by rw [h]
  · intro c hc
    have hmem : c ∈ t.data.filter (fun c => !(c == Char.ofNat 39 || c == '"')) := hc
    have hp := (List.mem_filter.mp hmem).2
    simp only [Bool.not_eq_true', Bool.or_eq_false_iff, beq_eq_false_iff_ne, ne_eq] at hp
    exact ⟨hp.2, hp.1⟩

/-- C10 witness: the theorem applied to the source text of the TS
literal `"He said \"hi\""` (authored runtime value `He said "hi"`): the
extracted summary is `He said \hi\` — the interior quotes are gone (the
escaping backslashes remain) and the result differs from the authored
value. -/
theorem parseDocConfigObject_strips_quotes_witness :
    parseDocConfigObject (.objectLit
        [("summary", .stringLit "\"He said \\\"hi\\\"\""),
         ("description", .stringLit "\"He said \\\"hi\\\"\"")])
      = { summary := some "He said \\hi\\", description := some "He said \\hi\\" }
    ∧ ('H' ≠ '"' ∧ 'H' ≠ Char.ofNat 39)
    ∧ some "He said \\hi\\" ≠ some "He said \"hi\"" :=
  ⟨((parseDocConfigObject_strips_quotes "\"He said \\\"hi\\\"\"" []).1).trans (by rfl),
   (parseDocConfigObject_strips_quotes "\"He said \\\"hi\\\"\"" []).2.2 'H' (by decide),
   by decide⟩
